import Mathlib

/-!
Verification of the CSV contact-record ingestion core of
`thatbeautifuldream/csv-parser`.

The TypeScript source (`src/components/csv-parser.tsx`, most complete
variant, together with the zustand store `csv-store.ts`) is shallowly
embedded below.  JavaScript strings are modelled as Lean `String`
(operating on `List Char`), the two `Map<string, number>` occurrence
counters as functions `String → Nat` with default `0`, the two
(write-only) `Set<string>` seen-sets as `List String`, and the injected
`uuidv4` generator as a function `Nat → String` applied to the data-row
index.  JavaScript `\s` and `.` character classes are modelled on their
ASCII/BMP behaviour (the inputs exercised by the claims are ASCII).
-/

set_option maxRecDepth 16000

namespace CsvParser

/-- Characters the JavaScript `\s` class (and `String.prototype.trim`)
treats as whitespace, restricted to the ASCII range plus NBSP. -/
def jsWS (c : Char) : Bool :=
  c = ' ' || c = '\t' || c = '\n' || c = '\r' || c = '\x0B' || c = '\x0C' || c = ' '

/-- Characters matched by the JavaScript regex `.` (anything but a line
terminator). -/
def jsDot (c : Char) : Bool :=
  !(c = '\n' || c = '\r' || c = ' ' || c = ' ')

/-- JavaScript `String.prototype.trim`: strip whitespace from both ends. -/
def jsTrim (s : String) : String :=
  ⟨((s.toList.dropWhile jsWS).reverse.dropWhile jsWS).reverse⟩

/-- JavaScript `String.prototype.toLowerCase` on the ASCII range. -/
def jsToLower (s : String) : String :=
  ⟨s.toList.map Char.toLower⟩

/-- JavaScript `String.prototype.includes` with a one-character needle
(the source only tests for `"\t"`, `","` and `"@"`). -/
def jsIncludesChar (s : String) (c : Char) : Bool :=
  s.toList.contains c

/-- JavaScript `Array.prototype.join` with a separator string. -/
def jsJoin (sep : String) : List String → String
  | [] => ""
  | [x] => x
  | x :: xs => x ++ sep ++ jsJoin sep xs

/-- JavaScript `String.prototype.split` with a one-character separator
(the source only ever splits on `"\n"`, `"\t"` or `","`). -/
def splitOnChar (sep : Char) : List Char → List (List Char)
  | [] => [[]]
  | c :: cs =>
    match splitOnChar sep cs with
    | [] => [[]]
    | f :: rest => if c = sep then [] :: f :: rest else (c :: f) :: rest

/-- The `input.split("\n")` used throughout `handleParse`. -/
def splitLines (s : String) : List String :=
  (splitOnChar '\n' s.toList).map (fun cs => (⟨cs⟩ : String))

/-- The `content.split("\n")[0]` of `detectDelimiter` (the split of a JS
string is never empty, so indexing at 0 never yields `undefined`). -/
def firstLine (content : String) : String :=
  (splitLines content).headD ""

/-- Source `detectDelimiter`: look only at the first line; tab wins over
comma; default tab.  The returned one-character JS string is modelled as a
`Char`. -/
def detectDelimiter (content : String) : Char :=
  if jsIncludesChar (firstLine content) '\t' then '\t'
  else if jsIncludesChar (firstLine content) ',' then ','
  else '\t'

/-!
The comma splitter uses `row.match(/(".*?"|[^,]+)(?=\s*,|\s*$)/g)`.
`csvLookahead` is the lookahead `(?=\s*,|\s*$)`: skip whitespace, then
require a comma or the end of the string (a comma is not whitespace, so
the backtracking inside `\s*` collapses to this single test).
-/

def csvLookahead : List Char → Bool
  | [] => true
  | c :: cs => if jsWS c then csvLookahead cs else c = ','

/-- Lazy `".*?"` continuation: given the characters after an opening
quote, find the shortest span of `.`-matchable characters followed by a
closing quote at which the lookahead succeeds.  Returns the span and the
rest after the closing quote.  A quote at which the lookahead fails is
consumed by `.*?` and the search continues, exactly as the backtracking
engine does. -/
def quotedRest : List Char → Option (List Char × List Char)
  | [] => none
  | c :: cs =>
    if c = '"' && csvLookahead cs then some ([], cs)
    else if jsDot c then (quotedRest cs).map (fun p => (c :: p.1, p.2))
    else none

/-- The alternative `[^,]+` with its lookahead.  The greedy run stops at a
comma or the end of input, where `csvLookahead` always succeeds, so no
backtracking over the run length is observable; the lookahead test is kept
to mirror the regex. -/
def unquotedMatch (cs : List Char) : Option (List Char × List Char) :=
  let tk := cs.takeWhile (fun c => c ≠ ',')
  let rest := cs.dropWhile (fun c => c ≠ ',')
  if tk.isEmpty then none
  else if csvLookahead rest then some (tk, rest) else none

/-- One attempt of the alternation `(".*?"|[^,]+)` at the current
position, quoted alternative first.  Returns the matched text (quotes
included) and the rest of the input. -/
def matchAt (cs : List Char) : Option (List Char × List Char) :=
  match cs with
  | [] => unquotedMatch []
  | c :: rest =>
    if c = '"' then
      match quotedRest rest with
      | some (content, rest2) => some ('"' :: content ++ ['"'], rest2)
      | none => unquotedMatch (c :: rest)
    else unquotedMatch (c :: rest)

/-- Leftmost match: try `matchAt` at each successive position. -/
def findMatch : List Char → Option (List Char × List Char)
  | [] => none
  | c :: cs =>
    match matchAt (c :: cs) with
    | some r => some r
    | none => findMatch cs

theorem quotedRest_length {cs m r} (h : quotedRest cs = some (m, r)) :
    r.length < cs.length := by
  induction cs generalizing m r with
  | nil => simp [quotedRest] at h
  | cons c cs ih =>
    simp only [quotedRest] at h
    split at h
    · simp only [Option.some.injEq, Prod.mk.injEq] at h
      obtain ⟨hm, hr⟩ := h
      subst hr
      simp
    · split at h
      · cases hq : quotedRest cs with
        | none => simp [hq] at h
        | some p =>
          obtain ⟨m', r'⟩ := p
          simp only [hq, Option.map_some', Option.some.injEq, Prod.mk.injEq] at h
          obtain ⟨hm, hr⟩ := h
          have := ih hq
          rw [hr] at this
          simp only [List.length_cons]
          omega
      · simp at h

theorem unquotedMatch_spec {cs m r} (h : unquotedMatch cs = some (m, r)) :
    m ≠ [] ∧ m ++ r = cs := by
  simp only [unquotedMatch] at h
  split at h
  · simp at h
  · split at h
    · simp only [Option.some.injEq, Prod.mk.injEq] at h
      refine ⟨?_, ?_⟩
      · rename_i hne _
        simp only [List.isEmpty_eq_true] at hne
        exact h.1 ▸ hne
      · rw [← h.1, ← h.2]
        exact List.takeWhile_append_dropWhile _ _
    · simp at h

theorem unquotedMatch_length {cs m r} (h : unquotedMatch cs = some (m, r)) :
    m ≠ [] ∧ r.length < cs.length := by
  have hs := unquotedMatch_spec h
  refine ⟨hs.1, ?_⟩
  have hlen := congrArg List.length hs.2
  simp only [List.length_append] at hlen
  have : m.length ≠ 0 := by
    intro h0
    exact hs.1 (List.length_eq_zero.mp h0)
  omega

theorem matchAt_length {cs m r} (h : matchAt cs = some (m, r)) :
    m ≠ [] ∧ r.length < cs.length := by
  cases cs with
  | nil => exact unquotedMatch_length h
  | cons c rest =>
    simp only [matchAt] at h
    by_cases hc : c = '"'
    · rw [if_pos hc] at h
      cases hq : quotedRest rest with
      | some p =>
        obtain ⟨content, rest2⟩ := p
        rw [hq] at h
        simp only [Option.some.injEq, Prod.mk.injEq] at h
        obtain ⟨hm, hr⟩ := h
        refine ⟨by simp [← hm], ?_⟩
        have h1 := quotedRest_length hq
        rw [hr] at h1
        have h2 : (c :: rest).length = rest.length + 1 := rfl
        omega
      | none =>
        rw [hq] at h
        exact unquotedMatch_length h
    · rw [if_neg hc] at h
      exact unquotedMatch_length h

theorem findMatch_length {cs m r} (h : findMatch cs = some (m, r)) :
    m ≠ [] ∧ r.length < cs.length := by
  induction cs generalizing m r with
  | nil => simp [findMatch] at h
  | cons c cs ih =>
    simp only [findMatch] at h
    cases hm : matchAt (c :: cs) with
    | some p =>
      rw [hm] at h
      cases h
      exact matchAt_length hm
    | none =>
      rw [hm] at h
      have := ih h
      exact ⟨this.1, Nat.lt_succ_of_lt this.2⟩

/-- Iterating the leftmost match, with a structural fuel so that the
kernel can evaluate the definition on concrete inputs.  Each iteration
consumes at least one character, so `cs.length + 1` units of fuel are
always sufficient (`regexMatches_unfold` below). -/
def regexMatchesAux : Nat → List Char → List (List Char)
  | 0, _ => []
  | fuel + 1, cs =>
    match findMatch cs with
    | none => []
    | some (m, rest) => m :: regexMatchesAux fuel rest

/-- All matches of the global regex, in order, as produced by
`String.prototype.match` with the `g` flag. -/
def regexMatches (cs : List Char) : List (List Char) :=
  regexMatchesAux (cs.length + 1) cs

theorem regexMatchesAux_fuel :
    ∀ (f1 f2 : Nat) (cs : List Char), cs.length < f1 → cs.length < f2 →
    regexMatchesAux f1 cs = regexMatchesAux f2 cs := by
  intro f1
  induction f1 with
  | zero => intro f2 cs h1 _; omega
  | succ n IH =>
    intro f2 cs h1 h2
    cases f2 with
    | zero => omega
    | succ m =>
      simp only [regexMatchesAux]
      cases hf : findMatch cs with
      | none => rfl
      | some p =>
        obtain ⟨mm, rest⟩ := p
        have hlt := (findMatch_length hf).2
        dsimp only
        rw [IH m rest (by omega) (by omega)]

/-- The recursion equation of the global-match loop. -/
theorem regexMatches_unfold (cs : List Char) :
    regexMatches cs =
      (match findMatch cs with
       | none => []
       | some (m, rest) => m :: regexMatches rest) := by
  have h1 : regexMatches cs = regexMatchesAux (cs.length + 1) cs := rfl
  rw [h1, regexMatchesAux]
  cases hf : findMatch cs with
  | none => rfl
  | some p =>
    obtain ⟨m, rest⟩ := p
    have hlt := (findMatch_length hf).2
    dsimp only
    rw [regexMatchesAux_fuel cs.length (rest.length + 1) rest (by omega) (by omega)]
    rfl

/-- Quote stripping applied to each regex match:
`field.startsWith('"') && field.endsWith('"') ? field.slice(1, -1) : field`. -/
def stripQuotes (f : String) : String :=
  if f.toList.head? = some '"' && f.toList.getLast? = some '"' then
    ⟨(f.toList.drop 1).dropLast⟩
  else f

/-- Source `splitRow`: for the comma delimiter use the quote-aware regex
(falling back to a naive split when the regex finds no matches, i.e.
`match` returned `null`); otherwise split naively on the delimiter. -/
def splitRow (row : String) (delimiter : Char) : List String :=
  if delimiter = ',' then
    match regexMatches row.toList with
    | [] => (splitOnChar delimiter row.toList).map (fun cs => (⟨cs⟩ : String))
    | ms => ms.map (fun m => stripQuotes ⟨m⟩)
  else (splitOnChar delimiter row.toList).map (fun cs => (⟨cs⟩ : String))

/-!
Header detection.  The source lowercases the first row and tests it with
three regexes of the shape `(^|\b)(kw1|kw2|...)($|\b)` (flag `i`, moot on
an already lowercased ASCII row).  Every keyword begins and ends with a
word character, so the boundary assertions reduce to: the preceding
character (if any) and the following character (if any) are non-word.
Keywords containing `\s*` are modelled as lists of literal parts joined
by an arbitrary whitespace run (the run after a part is maximal, which is
faithful because every following part starts with a non-whitespace
character).
-/

/-- JavaScript word character (`\w`). -/
def jsWordChar (c : Char) : Bool := c.isAlphanum || c = '_'

/-- Match a literal string at the head of the input, returning the rest. -/
def matchLit : List Char → List Char → Option (List Char)
  | [], cs => some cs
  | _ :: _, [] => none
  | k :: ks, c :: cs => if c = k then matchLit ks cs else none

/-- Match the parts of one keyword, separated by `\s*`. -/
def matchParts : List String → List Char → Option (List Char)
  | [], cs => some cs
  | [p], cs => matchLit p.toList cs
  | p :: ps, cs =>
    match matchLit p.toList cs with
    | none => none
    | some rest => matchParts ps (rest.dropWhile jsWS)

/-- Test one keyword at the current position, including both word-boundary
assertions (`prev` is the character before the position, if any). -/
def kwMatchAt (kw : List String) (prev : Option Char) (cs : List Char) : Bool :=
  (match prev with
   | none => true
   | some p => !jsWordChar p) &&
  (match matchParts kw cs with
   | none => false
   | some [] => true
   | some (c :: _) => !jsWordChar c)

/-- Scan every position of the line for a keyword occurrence. -/
def kwSearch (kw : List String) : Option Char → List Char → Bool
  | prev, [] => kwMatchAt kw prev []
  | prev, c :: cs => kwMatchAt kw prev (c :: cs) || kwSearch kw (some c) cs

/-- Source `headerPatterns.name`. -/
def nameKws : List (List String) :=
  [["name"], ["full", "name"], ["customer"], ["client"], ["contact"], ["person"]]

/-- Source `headerPatterns.email`. -/
def emailKws : List (List String) :=
  [["email"], ["e-mail"], ["mail"], ["address"], ["contact"], ["electronic", "mail"]]

/-- Source `headerPatterns.phone`. -/
def phoneKws : List (List String) :=
  [["phone"], ["tel"], ["telephone"], ["mobile"], ["cell"], ["contact"], ["number"]]

/-- The `pattern.test` of one keyword alternation. -/
def testKws (kws : List (List String)) (s : String) : Bool :=
  kws.any (fun kw => kwSearch kw none s.toList)

/-- Source `isHeader`: `Object.values(headerPatterns).some(p => p.test(firstRow))`,
applied to the already-lowercased first row. -/
def isHeaderLine (firstRow : String) : Bool :=
  testKws nameKws firstRow || testKws emailKws firstRow || testKws phoneKws firstRow

/-!
Field classification and validation.
-/

/-- The phone shape `^\+?[0-9]{10,14}$` used both by the classifier and by
the `RowSchema` phone rule. -/
def isPhoneShape (s : String) : Bool :=
  let ds := if s.toList.head? = some '+' then s.toList.tail else s.toList
  ds.all (fun c => c.isDigit) && decide (10 ≤ ds.length) && decide (ds.length ≤ 14)

/-- Modelled from the spec: `email: string matching a valid-email shape`.
The validator itself is zod's `z.string().email()`, a third-party
dependency whose source is not part of this repository; it is modelled as:
exactly one `@`, a nonempty local part without whitespace, and a domain of
at least two dot-separated labels of alphanumeric/hyphen characters whose
last label is alphabetic of length at least two.  Every concrete email
exercised by the claims (`j@x.com`, `a@x.com`, ...) is valid under both
this model and zod. -/
def isEmailShape (s : String) : Bool :=
  match splitOnChar '@' s.toList with
  | [lp, domain] =>
    !lp.isEmpty && lp.all (fun c => !jsWS c) &&
    (let labels := splitOnChar '.' domain
     decide (2 ≤ labels.length) &&
     labels.all (fun l => !l.isEmpty && l.all (fun c => c.isAlphanum || c = '-')) &&
     (labels.getLastD []).all (fun c => c.isAlpha) && decide (2 ≤ (labels.getLastD []).length))
  | _ => false

/-- Source `originalValues`: the transient role → trimmed-text mapping
built while categorizing the fields of one row. -/
structure ClassifiedFields where
  name : String := ""
  email : String := ""
  phone : String := ""
deriving DecidableEq, Repr

/-- Source field categorization loop: each field is trimmed, then
`@`-containing fields become email, phone-shaped fields become phone, and
everything else becomes name; a later field of the same role overwrites an
earlier one (last-write-wins). -/
def classifyFields (fields : List String) : ClassifiedFields :=
  fields.foldl
    (fun acc field =>
      let t := jsTrim field
      if jsIncludesChar t '@' then { acc with email := t }
      else if isPhoneShape t then { acc with phone := t }
      else { acc with name := t })
    {}

/-- Source `ParsedData` (`RowSchema` shape): id, name, phone, email. -/
structure ParsedData where
  id : String
  name : String
  phone : String
  email : String
deriving DecidableEq, Repr

/-- The field-level violations `RowSchema.parse` reports for a row, in
shape order (id is always a valid string): name nonempty, phone matching
the phone shape, email matching the email shape. -/
def invalidFields (r : ParsedData) : List String :=
  (if r.name.isEmpty then ["name"] else []) ++
  (if isPhoneShape r.phone then [] else ["phone"]) ++
  (if isEmailShape r.email then [] else ["email"])

/-!
The parse loop of `handleParse`.  The two `Map` counters are functions
with default value `0`; the two write-only `Set`s (`seenEmails`,
`seenPhones`) are carried as lists exactly as the source seeds and grows
them, although nothing ever reads them.
-/

/-- The `rowData` object built for a row that passed the field-count
check: an injected fresh id plus the classified field values. -/
def rowRecord (gen : Nat → String) (idx : Nat) (fields : List String) : ParsedData :=
  let ov := classifyFields fields
  { id := gen idx, name := ov.name, phone := ov.phone, email := ov.email }

/-- Mutable state of the `dataRows.forEach` loop. -/
structure ParseState where
  seenEmails : List String
  seenPhones : List String
  emailCounts : String → Nat
  phoneCounts : String → Nat
  parsed : List ParsedData
  errors : List String

/-- Body of `dataRows.forEach((row, index) => ...)`.  `gen` is the
injected `uuidv4` source, applied to the data-row index. -/
def processRow (delimiter : Char) (isHeader : Bool) (gen : Nat → String)
    (st : ParseState) (idx : Nat) (row : String) : ParseState :=
  let rowNumber := if isHeader then idx + 2 else idx + 1
  let fields := splitRow row delimiter
  if fields.length ≠ 3 then
    { st with errors := st.errors ++ ["Invalid number of fields at Row " ++ toString rowNumber] }
  else
    let rowData := rowRecord gen idx fields
    let issues := invalidFields rowData
    if issues ≠ [] then
      { st with errors :=
          st.errors ++ issues.map (fun f => "Invalid " ++ f ++ " at Row " ++ toString rowNumber) }
    else
      let emailLower := jsToLower rowData.email
      let phone := rowData.phone
      let ec := fun k => if k = emailLower then st.emailCounts k + 1 else st.emailCounts k
      let pc := fun k => if k = phone then st.phoneCounts k + 1 else st.phoneCounts k
      let duplicateDetails :=
        (if 1 < ec emailLower then ["email"] else []) ++ (if 1 < pc phone then ["phone"] else [])
      if duplicateDetails ≠ [] then
        { st with emailCounts := ec, phoneCounts := pc,
                  errors := st.errors ++
                    ["Duplicate " ++ jsJoin " and " duplicateDetails ++
                     " at Row " ++ toString rowNumber] }
      else if ec emailLower = 1 ∧ pc phone = 1 then
        { st with emailCounts := ec, phoneCounts := pc,
                  seenEmails := st.seenEmails ++ [emailLower],
                  seenPhones := st.seenPhones ++ [phone],
                  parsed := st.parsed ++ [rowData] }
      else
        { st with emailCounts := ec, phoneCounts := pc }

/-- The `forEach` loop itself, threading the state. -/
def forEachRows (delimiter : Char) (isHeader : Bool) (gen : Nat → String) :
    ParseState → Nat → List String → ParseState
  | st, _, [] => st
  | st, idx, row :: rest =>
    forEachRows delimiter isHeader gen (processRow delimiter isHeader gen st idx row) (idx + 1) rest

/-- Everything `handleParse` does once `rows` is known to be nonempty. -/
def parseRows (input : String) (rows : List String) (parsedData : List ParsedData)
    (gen : Nat → String) : List ParsedData × List String :=
  let delimiter := detectDelimiter input
  let firstRow := jsToLower (rows.headD "")
  let isHeader := isHeaderLine firstRow
  let dataRows := if isHeader then rows.tail else rows
  let init : ParseState :=
    { seenEmails := parsedData.map (fun e => jsToLower e.email),
      seenPhones := parsedData.map (fun e => e.phone),
      emailCounts := fun _ => 0, phoneCounts := fun _ => 0,
      parsed := [], errors := [] }
  let fin := forEachRows delimiter isHeader gen init 0 dataRows
  (fin.parsed, fin.errors)

/-- Source `handleParse`: returns the `ParseOutcome` as the pair
(accepted, errors).  `parsedData` is the caller's existing collection
(used only to seed the write-only seen-sets), `gen` the injected id
generator. -/
def handleParse (input : String) (parsedData : List ParsedData)
    (gen : Nat → String) : List ParsedData × List String :=
  let rows := splitLines (jsTrim input)
  if rows.length = 0 then ([], ["No data provided"])
  else parseRows input rows parsedData gen

/-- The `currentData.some(...)` collision test inside the store's
`setParsedData`. -/
def matchesExisting (currentData : List ParsedData) (newItem : ParsedData) : Bool :=
  currentData.any (fun e =>
    e.name == newItem.name || e.phone == newItem.phone || e.email == newItem.email)

/-- Store `setParsedData` (csv-store.ts): append exactly those candidates
that collide with no already-stored record on name, phone or email. -/
def setParsedData (currentData data : List ParsedData) : List ParsedData :=
  currentData ++ data.filter (fun newItem => !matchesExisting currentData newItem)

/-- One full parse-and-merge invocation: `handleParse` followed by the
source's `if (parsed.length > 0) setParsedData(parsed)`.  Returns the new
collection and the error list. -/
def commitParse (input : String) (coll : List ParsedData)
    (gen : Nat → String) : List ParsedData × List String :=
  let o := handleParse input coll gen
  (if 0 < o.1.length then setParsedData coll o.1 else coll, o.2)

/-- A concrete injected id generator used by the concrete evaluations. -/
def natGen : Nat → String := fun n => toString n

/-!
Reference layer.  `procRows` re-expresses the loop of `handleParse` in
the spec's vocabulary: instead of occurrence counters it carries the lists
of email/phone keys of the validated rows seen so far, and it returns one
`RowResult` per data row (its row number, its error strings, and its
accepted record if any).  The bridge lemma below proves that the
source-faithful fold equals this reference function.
-/

/-- Per-row outcome of the reference processing function. -/
structure RowResult where
  rowNumber : Nat
  errs : List String
  acc : List ParsedData
deriving DecidableEq, Repr

/-- Reference processing of one data row.  `seenE`/`seenP` are the
lowercased emails and exact phones of the validated rows processed so far
(one entry per validated row, duplicates included, mirroring the
counters); the returned lists are their updated versions. -/
def rowStep (delimiter : Char) (isHeader : Bool) (gen : Nat → String)
    (idx : Nat) (seenE seenP : List String) (row : String) :
    RowResult × List String × List String :=
  let rowNumber := if isHeader then idx + 2 else idx + 1
  let fields := splitRow row delimiter
  if fields.length ≠ 3 then
    (⟨rowNumber, ["Invalid number of fields at Row " ++ toString rowNumber], []⟩, seenE, seenP)
  else
    let rowData := rowRecord gen idx fields
    let issues := invalidFields rowData
    if issues ≠ [] then
      (⟨rowNumber, issues.map (fun f => "Invalid " ++ f ++ " at Row " ++ toString rowNumber), []⟩,
       seenE, seenP)
    else
      let emailLower := jsToLower rowData.email
      let phone := rowData.phone
      let duplicateDetails :=
        (if seenE.contains emailLower then ["email"] else []) ++
        (if seenP.contains phone then ["phone"] else [])
      if duplicateDetails ≠ [] then
        (⟨rowNumber, ["Duplicate " ++ jsJoin " and " duplicateDetails ++
                      " at Row " ++ toString rowNumber], []⟩,
         seenE ++ [emailLower], seenP ++ [phone])
      else
        (⟨rowNumber, [], [rowData]⟩, seenE ++ [emailLower], seenP ++ [phone])

/-- Reference row-by-row processing of a whole batch. -/
def procRows (delimiter : Char) (isHeader : Bool) (gen : Nat → String) :
    Nat → List String → List String → List String → List RowResult
  | _, _, _, [] => []
  | idx, seenE, seenP, row :: rest =>
    let s := rowStep delimiter isHeader gen idx seenE seenP row
    s.1 :: procRows delimiter isHeader gen (idx + 1) s.2.1 s.2.2 rest

/-- The data rows a given input is processed as (after trimming, line
splitting and header skipping). -/
def dataRowsOf (input : String) : List String :=
  let rows := splitLines (jsTrim input)
  if isHeaderLine (jsToLower (rows.headD "")) then rows.tail else rows

/-- Whether the (trimmed) first line of the input is taken as a header. -/
def headerOf (input : String) : Bool :=
  isHeaderLine (jsToLower ((splitLines (jsTrim input)).headD ""))

/-- Reference results for a whole input. -/
def procResults (input : String) (gen : Nat → String) : List RowResult :=
  procRows (detectDelimiter input) (headerOf input) gen 0 [] [] (dataRowsOf input)

/-- Reference outcome: accepted records and errors in row order. -/
def procOutcome (input : String) (gen : Nat → String) : List ParsedData × List String :=
  (((procResults input gen).map RowResult.acc).flatten,
   ((procResults input gen).map RowResult.errs).flatten)

/-- The validated rows of a batch: for each data row that splits into
exactly 3 fields and passes the validator, its row number paired with its
classified record.  Rows rejected by the field-count check or the
validator do not appear. -/
def validatedRows (delimiter : Char) (isHeader : Bool) (gen : Nat → String) :
    Nat → List String → List (Nat × ParsedData)
  | _, [] => []
  | idx, row :: rest =>
    let fields := splitRow row delimiter
    let tail := validatedRows delimiter isHeader gen (idx + 1) rest
    if fields.length ≠ 3 then tail
    else
      let rowData := rowRecord gen idx fields
      if invalidFields rowData ≠ [] then tail
      else ((if isHeader then idx + 2 else idx + 1), rowData) :: tail

/-- The validated rows of an input. -/
def validatedOf (input : String) (gen : Nat → String) : List (Nat × ParsedData) :=
  validatedRows (detectDelimiter input) (headerOf input) gen 0 (dataRowsOf input)

/-- Duplicate-tracking over the validated rows only, in the words of the
spec: the first occurrence of a lowercased email / exact phone among the
validated rows is committed; every later occurrence is dropped and
reported as `Duplicate <email and/or phone> at Row <n>`, naming both
fields in one error when both repeat.  Every validated row contributes its
keys to the seen lists whether or not it was committed. -/
def dupScan : List (Nat × ParsedData) → List String → List String →
    List ParsedData × List String
  | [], _, _ => ([], [])
  | (n, r) :: rest, seenE, seenP =>
    let ke := jsToLower r.email
    let kp := r.phone
    let duplicateDetails :=
      (if seenE.contains ke then ["email"] else []) ++
      (if seenP.contains kp then ["phone"] else [])
    let tail := dupScan rest (seenE ++ [ke]) (seenP ++ [kp])
    if duplicateDetails ≠ [] then
      (tail.1, ("Duplicate " ++ jsJoin " and " duplicateDetails ++
                " at Row " ++ toString n) :: tail.2)
    else (r :: tail.1, tail.2)

/-- The three record fields compared by duplicate detection and the store
filter (everything except the opaque id). -/
def projNPE (r : ParsedData) : String × String × String := (r.name, r.phone, r.email)

/-- A sequence of parse-and-merge invocations starting from the empty
committed collection. -/
def commitMany (steps : List (String × (Nat → String))) : List ParsedData :=
  steps.foldl (fun coll s => (commitParse s.1 coll s.2).1) []

/-!
Bridge: the source-faithful fold over the counters equals the reference
function over seen-key lists.
-/

theorem splitOnChar_ne_nil (sep : Char) (cs : List Char) : splitOnChar sep cs ≠ [] := by
  cases cs with
  | nil => simp [splitOnChar]
  | cons c cs =>
    simp only [splitOnChar]
    cases h : splitOnChar sep cs with
    | nil => simp
    | cons f rest =>
      by_cases hc : c = sep <;> simp [hc]

theorem splitLines_ne_nil (s : String) : splitLines s ≠ [] := by
  unfold splitLines
  intro h
  exact splitOnChar_ne_nil '\n' s.toList (List.map_eq_nil_iff.mp h)

theorem count_snoc (l : List String) (a k : String) :
    (l ++ [a]).count k = l.count k + (if k = a then 1 else 0) := by
  rw [List.count_append]
  by_cases h : k = a <;> simp [List.count_singleton', h, beq_iff_eq]

theorem contains_eq_true_iff (l : List String) (k : String) :
    l.contains k = true ↔ k ∈ l := by
  simp [List.elem_eq_mem, List.contains]

theorem contains_iff_count_pos (l : List String) (k : String) :
    l.contains k = true ↔ 0 < l.count k := by
  rw [List.count_pos_iff]
  simp [List.elem_eq_mem, List.contains]

theorem count_snoc_self (l : List String) (a : String) :
    (l ++ [a]).count a = l.count a + 1 := by
  rw [count_snoc, if_pos rfl]

/-- Bridge for one row: if the state's counters count exactly the keys in
`seenE`/`seenP`, then `processRow` appends the `rowStep` result's errors
and accepted record, and its updated counters count the updated keys. -/
theorem processRow_bridge (d : Char) (ihd : Bool) (gen : Nat → String)
    (st : ParseState) (idx : Nat) (seenE seenP : List String) (row : String)
    (hE : ∀ k, st.emailCounts k = seenE.count k)
    (hP : ∀ k, st.phoneCounts k = seenP.count k) :
    (processRow d ihd gen st idx row).parsed
      = st.parsed ++ (rowStep d ihd gen idx seenE seenP row).1.acc ∧
    (processRow d ihd gen st idx row).errors
      = st.errors ++ (rowStep d ihd gen idx seenE seenP row).1.errs ∧
    (∀ k, (processRow d ihd gen st idx row).emailCounts k
      = (rowStep d ihd gen idx seenE seenP row).2.1.count k) ∧
    (∀ k, (processRow d ihd gen st idx row).phoneCounts k
      = (rowStep d ihd gen idx seenE seenP row).2.2.count k) := by
  simp only [processRow, rowStep]
  by_cases h3 : (splitRow row d).length ≠ 3
  · simp only [if_pos h3]
    exact ⟨by simp, by simp, fun k => hE k, fun k => hP k⟩
  · simp only [if_neg h3]
    by_cases hiss : invalidFields (rowRecord gen idx (splitRow row d)) ≠ []
    · simp only [if_pos hiss]
      exact ⟨by simp, by simp, fun k => hE k, fun k => hP k⟩
    · simp only [if_neg hiss, eq_self_iff_true, if_true,
        hE (jsToLower (rowRecord gen idx (splitRow row d)).email),
        hP (rowRecord gen idx (splitRow row d)).phone]
      have hdetE :
          (if 1 < seenE.count (jsToLower (rowRecord gen idx (splitRow row d)).email) + 1
           then ["email"] else ([] : List String))
          = (if seenE.contains (jsToLower (rowRecord gen idx (splitRow row d)).email)
             then ["email"] else []) := by
        by_cases hc : seenE.contains (jsToLower (rowRecord gen idx (splitRow row d)).email)
        · rw [if_pos hc, if_pos]
          rw [contains_iff_count_pos] at hc
          omega
        · rw [if_neg hc, if_neg]
          intro hlt
          apply hc
          rw [contains_iff_count_pos]
          omega
      have hdetP :
          (if 1 < seenP.count (rowRecord gen idx (splitRow row d)).phone + 1
           then ["phone"] else ([] : List String))
          = (if seenP.contains (rowRecord gen idx (splitRow row d)).phone
             then ["phone"] else []) := by
        by_cases hc : seenP.contains (rowRecord gen idx (splitRow row d)).phone
        · rw [if_pos hc, if_pos]
          rw [contains_iff_count_pos] at hc
          omega
        · rw [if_neg hc, if_neg]
          intro hlt
          apply hc
          rw [contains_iff_count_pos]
          omega
      rw [hdetE, hdetP]
      by_cases hdup :
          ((if seenE.contains (jsToLower (rowRecord gen idx (splitRow row d)).email)
            then ["email"] else ([] : List String)) ++
           (if seenP.contains (rowRecord gen idx (splitRow row d)).phone
            then ["phone"] else [])) ≠ []
      · simp only [if_pos hdup]
        refine ⟨by simp, by simp, fun k => ?_, fun k => ?_⟩
        · by_cases hk : k = jsToLower (rowRecord gen idx (splitRow row d)).email
          · simp only [hk, eq_self_iff_true, if_true, hE, count_snoc_self]
          · simp only [if_neg hk, hE, count_snoc, Nat.add_zero]
        · by_cases hk : k = (rowRecord gen idx (splitRow row d)).phone
          · simp only [hk, eq_self_iff_true, if_true, hP, count_snoc_self]
          · simp only [if_neg hk, hP, count_snoc, Nat.add_zero]
      · simp only [if_neg hdup]
        have hnils := of_not_not hdup
        have hcE : ¬ seenE.contains (jsToLower (rowRecord gen idx (splitRow row d)).email) := by
          intro hc
          rw [if_pos hc] at hnils
          simp at hnils
        have hcP : ¬ seenP.contains (rowRecord gen idx (splitRow row d)).phone := by
          intro hc
          rw [if_pos hc] at hnils
          simp at hnils
        have hcntE : seenE.count (jsToLower (rowRecord gen idx (splitRow row d)).email) = 0 := by
          by_contra hne
          exact hcE ((contains_iff_count_pos _ _).mpr (Nat.pos_of_ne_zero hne))
        have hcntP : seenP.count (rowRecord gen idx (splitRow row d)).phone = 0 := by
          by_contra hne
          exact hcP ((contains_iff_count_pos _ _).mpr (Nat.pos_of_ne_zero hne))
        rw [if_pos (⟨by omega, by omega⟩ :
          seenE.count (jsToLower (rowRecord gen idx (splitRow row d)).email) + 1 = 1 ∧
          seenP.count (rowRecord gen idx (splitRow row d)).phone + 1 = 1)]
        refine ⟨by simp, by simp, fun k => ?_, fun k => ?_⟩
        · by_cases hk : k = jsToLower (rowRecord gen idx (splitRow row d)).email
          · simp only [hk, eq_self_iff_true, if_true, hE, count_snoc_self]
          · simp only [if_neg hk, hE, count_snoc, Nat.add_zero]
        · by_cases hk : k = (rowRecord gen idx (splitRow row d)).phone
          · simp only [hk, eq_self_iff_true, if_true, hP, count_snoc_self]
          · simp only [if_neg hk, hP, count_snoc, Nat.add_zero]

/-- Bridge for the whole loop: the source-faithful fold over counters
produces exactly the accepted records and errors described by `procRows`,
appended to what the state already accumulated. -/
theorem forEachRows_bridge (d : Char) (ihd : Bool) (gen : Nat → String) :
    ∀ (rows : List String) (idx : Nat) (st : ParseState) (seenE seenP : List String),
    (∀ k, st.emailCounts k = seenE.count k) →
    (∀ k, st.phoneCounts k = seenP.count k) →
    (forEachRows d ihd gen st idx rows).parsed
      = st.parsed ++ ((procRows d ihd gen idx seenE seenP rows).map RowResult.acc).flatten ∧
    (forEachRows d ihd gen st idx rows).errors
      = st.errors ++ ((procRows d ihd gen idx seenE seenP rows).map RowResult.errs).flatten := by
  intro rows
  induction rows with
  | nil =>
    intro idx st seenE seenP _ _
    simp [forEachRows, procRows]
  | cons row rest IH =>
    intro idx st seenE seenP hE hP
    have hstep := processRow_bridge d ihd gen st idx seenE seenP row hE hP
    have hrec := IH (idx + 1) (processRow d ihd gen st idx row)
      (rowStep d ihd gen idx seenE seenP row).2.1 (rowStep d ihd gen idx seenE seenP row).2.2
      hstep.2.2.1 hstep.2.2.2
    rw [forEachRows, procRows]
    constructor
    · rw [hrec.1, hstep.1]
      simp [List.append_assoc]
    · rw [hrec.2, hstep.2.1]
      simp [List.append_assoc]

/-- The outcome of `handleParse` is exactly the reference outcome.  In
particular the outcome does not depend on the existing collection, which
only seeds the two write-only seen-sets. -/
theorem handleParse_eq_procOutcome (input : String) (coll : List ParsedData)
    (gen : Nat → String) : handleParse input coll gen = procOutcome input gen := by
  unfold handleParse
  rw [if_neg (fun h => splitLines_ne_nil (jsTrim input) (List.length_eq_zero.mp h))]
  simp only [parseRows, procOutcome, procResults, dataRowsOf, headerOf]
  have hb := forEachRows_bridge (detectDelimiter input)
    (isHeaderLine (jsToLower ((splitLines (jsTrim input)).headD ""))) gen
    (if isHeaderLine (jsToLower ((splitLines (jsTrim input)).headD ""))
     then (splitLines (jsTrim input)).tail else splitLines (jsTrim input)) 0
    { seenEmails := coll.map (fun e => jsToLower e.email),
      seenPhones := coll.map (fun e => e.phone),
      emailCounts := fun _ => 0, phoneCounts := fun _ => 0,
      parsed := [], errors := [] }
    [] [] (fun k => by simp) (fun k => by simp)
  rw [hb.1, hb.2]
  simp

/-!
Relating the reference processing to the duplicate-scan over validated
rows only.
-/

/-- The accepted records of a batch are exactly the result of the
duplicate scan over its validated rows, and the duplicate errors are a
sublist (in order) of the full error list. -/
theorem procRows_dupScan (d : Char) (ihd : Bool) (gen : Nat → String) :
    ∀ (rows : List String) (idx : Nat) (seenE seenP : List String),
    ((procRows d ihd gen idx seenE seenP rows).map RowResult.acc).flatten
      = (dupScan (validatedRows d ihd gen idx rows) seenE seenP).1 ∧
    (dupScan (validatedRows d ihd gen idx rows) seenE seenP).2.Sublist
      ((procRows d ihd gen idx seenE seenP rows).map RowResult.errs).flatten := by
  intro rows
  induction rows with
  | nil =>
    intro idx seenE seenP
    simp [procRows, validatedRows, dupScan]
  | cons row rest IH =>
    intro idx seenE seenP
    rw [procRows, validatedRows]
    simp only [rowStep]
    by_cases h3 : (splitRow row d).length ≠ 3
    · simp only [if_pos h3]
      have := IH (idx + 1) seenE seenP
      refine ⟨by simpa using this.1, ?_⟩
      simp only [List.map_cons, List.flatten_cons]
      exact this.2.trans (List.sublist_append_right _ _)
    · simp only [if_neg h3]
      by_cases hiss : invalidFields (rowRecord gen idx (splitRow row d)) ≠ []
      · simp only [if_pos hiss]
        have := IH (idx + 1) seenE seenP
        refine ⟨by simpa using this.1, ?_⟩
        simp only [List.map_cons, List.flatten_cons]
        exact this.2.trans (List.sublist_append_right _ _)
      · simp only [if_neg hiss]
        rw [dupScan]
        by_cases hdup :
            ((if seenE.contains (jsToLower (rowRecord gen idx (splitRow row d)).email)
              then ["email"] else ([] : List String)) ++
             (if seenP.contains (rowRecord gen idx (splitRow row d)).phone
              then ["phone"] else [])) ≠ []
        · simp only [if_pos hdup]
          have := IH (idx + 1)
            (seenE ++ [jsToLower (rowRecord gen idx (splitRow row d)).email])
            (seenP ++ [(rowRecord gen idx (splitRow row d)).phone])
          refine ⟨by simpa using this.1, ?_⟩
          simp only [List.map_cons, List.flatten_cons]
          exact this.2.cons₂ _
        · simp only [if_neg hdup]
          have := IH (idx + 1)
            (seenE ++ [jsToLower (rowRecord gen idx (splitRow row d)).email])
            (seenP ++ [(rowRecord gen idx (splitRow row d)).phone])
          refine ⟨by simpa using this.1, ?_⟩
          simp only [List.map_cons, List.flatten_cons, List.nil_append]
          exact this.2

/-- Records accepted by the duplicate scan have keys outside the initial
seen lists, and are pairwise distinct on lowercased email and exact
phone. -/
theorem dupScan_acc_spec :
    ∀ (vl : List (Nat × ParsedData)) (seenE seenP : List String),
    (∀ r ∈ (dupScan vl seenE seenP).1, jsToLower r.email ∉ seenE ∧ r.phone ∉ seenP) ∧
    (dupScan vl seenE seenP).1.Pairwise
      (fun a b => jsToLower a.email ≠ jsToLower b.email ∧ a.phone ≠ b.phone) := by
  intro vl
  induction vl with
  | nil => intro seenE seenP; simp [dupScan]
  | cons p rest IH =>
    intro seenE seenP
    obtain ⟨n, r⟩ := p
    rw [dupScan]
    by_cases hdup :
        ((if seenE.contains (jsToLower r.email) then ["email"] else ([] : List String)) ++
         (if seenP.contains r.phone then ["phone"] else [])) ≠ []
    · simp only [if_pos hdup]
      have := IH (seenE ++ [jsToLower r.email]) (seenP ++ [r.phone])
      refine ⟨fun r' hr' => ?_, this.2⟩
      have h := this.1 r' hr'
      constructor
      · intro hmem
        exact h.1 (List.mem_append_left _ hmem)
      · intro hmem
        exact h.2 (List.mem_append_left _ hmem)
    · simp only [if_neg hdup]
      have hnils := of_not_not hdup
      have hcE : jsToLower r.email ∉ seenE := by
        intro hc
        rw [if_pos ((contains_eq_true_iff _ _).mpr hc)] at hnils
        simp at hnils
      have hcP : r.phone ∉ seenP := by
        intro hc
        rw [if_pos ((contains_eq_true_iff _ _).mpr hc)] at hnils
        simp at hnils
      have := IH (seenE ++ [jsToLower r.email]) (seenP ++ [r.phone])
      refine ⟨fun r' hr' => ?_, ?_⟩
      · rcases List.mem_cons.mp hr' with h | h
        · subst h
          exact ⟨hcE, hcP⟩
        · have hk := this.1 r' h
          exact ⟨fun hm => hk.1 (List.mem_append_left _ hm),
                 fun hm => hk.2 (List.mem_append_left _ hm)⟩
      · refine List.Pairwise.cons (fun b hb => ?_) this.2
        have hk := this.1 b hb
        constructor
        · intro he
          exact hk.1 (he ▸ List.mem_append_right _ (List.mem_singleton_self _))
        · intro hp
          exact hk.2 (hp ▸ List.mem_append_right _ (List.mem_singleton_self _))

/-!
Row numbers and the shape of error messages.
-/

theorem rowStep_rowNumber (d : Char) (ihd : Bool) (gen : Nat → String)
    (idx : Nat) (sE sP : List String) (row : String) :
    (rowStep d ihd gen idx sE sP row).1.rowNumber = if ihd then idx + 2 else idx + 1 := by
  simp only [rowStep]
  split_ifs <;> rfl

theorem procRows_rowNumbers (d : Char) (ihd : Bool) (gen : Nat → String) :
    ∀ (rows : List String) (idx : Nat) (sE sP : List String),
    (procRows d ihd gen idx sE sP rows).map RowResult.rowNumber
      = List.range' (if ihd then idx + 2 else idx + 1) rows.length := by
  intro rows
  induction rows with
  | nil => intro idx sE sP; simp [procRows]
  | cons row rest IHr =>
    intro idx sE sP
    rw [procRows]
    simp only [List.map_cons, rowStep_rowNumber, List.length_cons, List.range'_succ]
    rw [IHr]
    cases ihd <;> simp

theorem rowStep_errs_shape (d : Char) (ihd : Bool) (gen : Nat → String)
    (idx : Nat) (sE sP : List String) (row : String) :
    ∀ e ∈ (rowStep d ihd gen idx sE sP row).1.errs,
    ∃ p, e = p ++ (" at Row " ++ toString (rowStep d ihd gen idx sE sP row).1.rowNumber) := by
  rw [rowStep_rowNumber]
  simp only [rowStep]
  by_cases h3 : (splitRow row d).length ≠ 3
  · simp only [if_pos h3]
    intro e he
    rw [List.mem_singleton] at he
    subst he
    refine ⟨"Invalid number of fields", ?_⟩
    rw [← String.append_assoc]
    congr 1
  · simp only [if_neg h3]
    by_cases hiss : invalidFields (rowRecord gen idx (splitRow row d)) ≠ []
    · simp only [if_pos hiss]
      intro e he
      rw [List.mem_map] at he
      obtain ⟨f, _, hf⟩ := he
      subst hf
      exact ⟨"Invalid " ++ f, by rw [String.append_assoc]⟩
    · simp only [if_neg hiss]
      generalize ((if sE.contains (jsToLower (rowRecord gen idx (splitRow row d)).email)
          then ["email"] else ([] : List String)) ++
        (if sP.contains (rowRecord gen idx (splitRow row d)).phone
          then ["phone"] else [])) = D
      by_cases hdup : D ≠ []
      · simp only [if_pos hdup]
        intro e he
        rw [List.mem_singleton] at he
        subst he
        exact ⟨"Duplicate " ++ jsJoin " and " D, by rw [String.append_assoc]⟩
      · simp only [if_neg hdup]
        intro e he
        simp at he

/-!
Generator independence: everything observable except the opaque ids is
the same for any two injected id generators.
-/

theorem rowStep_sim (d : Char) (ihd : Bool) (g1 g2 : Nat → String)
    (idx : Nat) (sE sP : List String) (row : String) :
    (rowStep d ihd g1 idx sE sP row).1.errs = (rowStep d ihd g2 idx sE sP row).1.errs ∧
    (rowStep d ihd g1 idx sE sP row).1.acc.map projNPE
      = (rowStep d ihd g2 idx sE sP row).1.acc.map projNPE ∧
    (rowStep d ihd g1 idx sE sP row).2 = (rowStep d ihd g2 idx sE sP row).2 := by
  have hinv : invalidFields (rowRecord g2 idx (splitRow row d))
      = invalidFields (rowRecord g1 idx (splitRow row d)) := rfl
  have hem : (rowRecord g2 idx (splitRow row d)).email
      = (rowRecord g1 idx (splitRow row d)).email := rfl
  have hph : (rowRecord g2 idx (splitRow row d)).phone
      = (rowRecord g1 idx (splitRow row d)).phone := rfl
  have hproj : projNPE (rowRecord g2 idx (splitRow row d))
      = projNPE (rowRecord g1 idx (splitRow row d)) := rfl
  simp only [rowStep, hinv, hem, hph]
  by_cases h3 : (splitRow row d).length ≠ 3
  · simp [if_pos h3]
  · simp only [if_neg h3]
    by_cases hiss : invalidFields (rowRecord g1 idx (splitRow row d)) ≠ []
    · simp [if_pos hiss]
    · simp only [if_neg hiss]
      split_ifs <;> simp [hproj]

theorem procRows_sim (d : Char) (ihd : Bool) (g1 g2 : Nat → String) :
    ∀ (rows : List String) (idx : Nat) (sE sP : List String),
    (procRows d ihd g1 idx sE sP rows).map RowResult.errs
      = (procRows d ihd g2 idx sE sP rows).map RowResult.errs ∧
    (procRows d ihd g1 idx sE sP rows).map (fun rr => rr.acc.map projNPE)
      = (procRows d ihd g2 idx sE sP rows).map (fun rr => rr.acc.map projNPE) := by
  intro rows
  induction rows with
  | nil => intro idx sE sP; simp [procRows]
  | cons row rest IHr =>
    intro idx sE sP
    rw [procRows, procRows]
    have hs := rowStep_sim d ihd g1 g2 idx sE sP row
    simp only [List.map_cons]
    rw [hs.1, hs.2.1, hs.2.2]
    have := IHr (idx + 1) (rowStep d ihd g2 idx sE sP row).2.1 (rowStep d ihd g2 idx sE sP row).2.2
    rw [this.1, this.2]
    exact ⟨rfl, rfl⟩

theorem procOutcome_sim (input : String) (g1 g2 : Nat → String) :
    (procOutcome input g1).2 = (procOutcome input g2).2 ∧
    (procOutcome input g1).1.map projNPE = (procOutcome input g2).1.map projNPE := by
  unfold procOutcome procResults
  constructor
  · exact congrArg List.flatten
      (procRows_sim (detectDelimiter input) (headerOf input) g1 g2 (dataRowsOf input) 0 [] []).1
  · rw [List.map_flatten, List.map_flatten, List.map_map, List.map_map]
    exact congrArg List.flatten
      (procRows_sim (detectDelimiter input) (headerOf input) g1 g2 (dataRowsOf input) 0 [] []).2

/-!
No regex match is empty.
-/

theorem regexMatches_ne_nil_aux :
    ∀ (n : Nat) (cs : List Char), cs.length ≤ n → ∀ m ∈ regexMatches cs, m ≠ [] := by
  intro n
  induction n with
  | zero =>
    intro cs hlen m hm
    have hnil : cs = [] := List.length_eq_zero.mp (Nat.le_zero.mp hlen)
    subst hnil
    rw [regexMatches_unfold] at hm
    simp [findMatch] at hm
  | succ n IH =>
    intro cs hlen m hm
    rw [regexMatches_unfold] at hm
    split at hm
    · simp at hm
    · rename_i m' rest heq
      rcases List.mem_cons.mp hm with h | h
      · subst h
        exact (findMatch_length heq).1
      · have hlt := (findMatch_length heq).2
        exact IH rest (by omega) m h

theorem mem_regexMatches_ne_nil {cs : List Char} {m : List Char}
    (h : m ∈ regexMatches cs) : m ≠ [] :=
  regexMatches_ne_nil_aux cs.length cs le_rfl m h

/-!
Store lemmas.
-/

/-- The store filter keeps exactly the candidates all three of whose
compared fields differ from every already-stored record. -/
theorem setParsedData_filter_char (cur data : List ParsedData) :
    setParsedData cur data
      = cur ++ data.filter (fun n =>
          decide (∀ e ∈ cur, e.name ≠ n.name ∧ e.phone ≠ n.phone ∧ e.email ≠ n.email)) := by
  unfold setParsedData
  congr 1
  apply List.filter_congr
  intro x _
  rw [Bool.eq_iff_iff]
  simp only [matchesExisting, Bool.not_eq_true', List.any_eq_false, Bool.or_eq_true,
    beq_iff_eq, decide_eq_true_eq, not_or, and_assoc]

/-- A collection that has already absorbed a batch absorbs nothing from
any batch with the same names, phones and emails: every candidate
collides (with its own first-run copy, or with whatever blocked that
copy). -/
theorem setParsedData_absorb (c0 a1 a2 : List ParsedData)
    (h : a2.map projNPE = a1.map projNPE) :
    setParsedData (setParsedData c0 a1) a2 = setParsedData c0 a1 := by
  have hall : ∀ n ∈ a2, matchesExisting (setParsedData c0 a1) n = true := by
    intro n hn
    have hproj : projNPE n ∈ a1.map projNPE := by
      rw [← h]
      exact List.mem_map_of_mem projNPE hn
    rw [List.mem_map] at hproj
    obtain ⟨m, hm, hpm⟩ := hproj
    have hname : m.name = n.name := congrArg (fun p => p.1) hpm
    have hphone : m.phone = n.phone := congrArg (fun p => p.2.1) hpm
    have hemail : m.email = n.email := congrArg (fun p => p.2.2) hpm
    by_cases hme : matchesExisting c0 m = true
    · simp only [matchesExisting, List.any_eq_true] at hme ⊢
      obtain ⟨e, he, hcond⟩ := hme
      refine ⟨e, List.mem_append_left _ he, ?_⟩
      rw [hname, hphone, hemail] at hcond
      exact hcond
    · have hmem : m ∈ setParsedData c0 a1 := by
        unfold setParsedData
        refine List.mem_append_right _ ?_
        rw [List.mem_filter]
        refine ⟨hm, ?_⟩
        simp [hme]
      simp only [matchesExisting, List.any_eq_true]
      refine ⟨m, hmem, ?_⟩
      simp [hemail]
  have hfil : a2.filter (fun newItem => !matchesExisting (setParsedData c0 a1) newItem) = [] := by
    rw [List.filter_eq_nil_iff]
    intro a ha
    simp [hall a ha]
  conv_lhs => rw [setParsedData, hfil]
  exact List.append_nil _

/-- Merging a batch whose lowercased emails and phones are pairwise
distinct into a collection with pairwise-distinct exact emails and phones
preserves that distinctness. -/
theorem setParsedData_good (c batch : List ParsedData)
    (hc : c.Pairwise (fun a b => a.email ≠ b.email ∧ a.phone ≠ b.phone))
    (hb : batch.Pairwise (fun a b => jsToLower a.email ≠ jsToLower b.email ∧ a.phone ≠ b.phone)) :
    (setParsedData c batch).Pairwise (fun a b => a.email ≠ b.email ∧ a.phone ≠ b.phone) := by
  unfold setParsedData
  rw [List.pairwise_append]
  refine ⟨hc, ?_, ?_⟩
  · refine ((hb.sublist (List.filter_sublist _)).imp ?_)
    intro a b hab
    exact ⟨fun he => hab.1 (congrArg jsToLower he), hab.2⟩
  · intro a ha b hb'
    rw [List.mem_filter] at hb'
    have hmx : matchesExisting c b = false := by simpa using hb'.2
    simp only [matchesExisting, List.any_eq_false, Bool.or_eq_true, beq_iff_eq, not_or,
      and_assoc] at hmx
    have := hmx a ha
    exact ⟨this.2.2, this.2.1⟩

/-!
Derived facts about `handleParse` and `commitParse`.
-/

/-- The accepted records are the duplicate scan of the validated rows,
and the duplicate errors appear, in order, within the error list. -/
theorem handleParse_acc_eq_dupScan (input : String) (coll : List ParsedData)
    (gen : Nat → String) :
    (handleParse input coll gen).1 = (dupScan (validatedOf input gen) [] []).1 ∧
    (dupScan (validatedOf input gen) [] []).2.Sublist (handleParse input coll gen).2 := by
  rw [handleParse_eq_procOutcome]
  unfold procOutcome procResults validatedOf
  exact ⟨(procRows_dupScan (detectDelimiter input) (headerOf input) gen
            (dataRowsOf input) 0 [] []).1,
         (procRows_dupScan (detectDelimiter input) (headerOf input) gen
            (dataRowsOf input) 0 [] []).2⟩

/-- Within one batch, accepted records are pairwise distinct on
lowercased email and on exact phone. -/
theorem handleParse_acc_pairwise (input : String) (coll : List ParsedData)
    (gen : Nat → String) :
    (handleParse input coll gen).1.Pairwise
      (fun a b => jsToLower a.email ≠ jsToLower b.email ∧ a.phone ≠ b.phone) := by
  rw [(handleParse_acc_eq_dupScan input coll gen).1]
  exact (dupScan_acc_spec (validatedOf input gen) [] []).2

/-- One parse-and-merge step preserves pairwise distinctness of exact
emails and phones in the committed collection. -/
theorem commitParse_good (input : String) (c : List ParsedData) (gen : Nat → String)
    (hc : c.Pairwise (fun a b => a.email ≠ b.email ∧ a.phone ≠ b.phone)) :
    (commitParse input c gen).1.Pairwise
      (fun a b => a.email ≠ b.email ∧ a.phone ≠ b.phone) := by
  unfold commitParse
  by_cases hlen : 0 < (handleParse input c gen).1.length
  · simp only [if_pos hlen]
    exact setParsedData_good c _ hc (handleParse_acc_pairwise input c gen)
  · simp only [if_neg hlen]
    exact hc

/-- Folding parse-and-merge steps preserves the distinctness invariant. -/
theorem commitFold_good (steps : List (String × (Nat → String))) :
    ∀ (c : List ParsedData),
    c.Pairwise (fun a b => a.email ≠ b.email ∧ a.phone ≠ b.phone) →
    (steps.foldl (fun coll s => (commitParse s.1 coll s.2).1) c).Pairwise
      (fun a b => a.email ≠ b.email ∧ a.phone ≠ b.phone) := by
  induction steps with
  | nil => intro c hc; exact hc
  | cons s rest IH =>
    intro c hc
    exact IH _ (commitParse_good s.1 c s.2 hc)

/-- Every error string of a row result carries that row's row number. -/
theorem procRows_errs_shape (d : Char) (ihd : Bool) (gen : Nat → String) :
    ∀ (rows : List String) (idx : Nat) (sE sP : List String),
    ∀ rr ∈ procRows d ihd gen idx sE sP rows, ∀ e ∈ rr.errs,
    ∃ p, e = p ++ (" at Row " ++ toString rr.rowNumber) := by
  intro rows
  induction rows with
  | nil => intro idx sE sP rr hrr; simp [procRows] at hrr
  | cons row rest IHr =>
    intro idx sE sP rr hrr
    rw [procRows] at hrr
    rcases List.mem_cons.mp hrr with h | h
    · subst h
      exact rowStep_errs_shape d ihd gen idx sE sP row
    · exact IHr (idx + 1) _ _ rr h

/-!
Claim theorems.
-/

/-- C1, counterexample: parse `"Jo\t5551234567\tj@x.com"` once from the
empty collection and merge its accepted records; parsing the same input a
second time against that collection emits NO error at all — in particular
no duplicate error for the (single) data row — because the duplicate
counters start fresh each invocation and are never seeded from the
collection.  This refutes the claim that the second run emits a duplicate
error for every data row. -/
theorem claim_C1_counterexample :
    (handleParse "Jo\t5551234567\tj@x.com"
      (setParsedData [] (handleParse "Jo\t5551234567\tj@x.com" [] natGen).1) natGen).2 = [] ∧
    (setParsedData [] (handleParse "Jo\t5551234567\tj@x.com" [] natGen).1).length = 1 := by
  decide

/-- C1, amended: for every input and every collection that has absorbed
the accepted records of a first parse of that input, a second parse of the
same input returns the same errors as the first run and accepted records
with the same names, phones and emails (the parser never consults the
collection), and merging the second run's accepted records leaves the
collection unchanged — zero records are newly committed, silently. -/
theorem claim_C1_thm (input : String) (c0 : List ParsedData) (g1 g2 : Nat → String) :
    (handleParse input (setParsedData c0 (handleParse input c0 g1).1) g2).2
      = (handleParse input c0 g1).2 ∧
    (handleParse input (setParsedData c0 (handleParse input c0 g1).1) g2).1.map projNPE
      = (handleParse input c0 g1).1.map projNPE ∧
    setParsedData (setParsedData c0 (handleParse input c0 g1).1)
        (handleParse input (setParsedData c0 (handleParse input c0 g1).1) g2).1
      = setParsedData c0 (handleParse input c0 g1).1 := by
  have e1 := handleParse_eq_procOutcome input c0 g1
  have e2 := handleParse_eq_procOutcome input
    (setParsedData c0 (handleParse input c0 g1).1) g2
  have hs := procOutcome_sim input g2 g1
  refine ⟨?_, ?_, ?_⟩
  · rw [e2, e1]
    exact hs.1
  · rw [e2, e1]
    exact hs.2
  · apply setParsedData_absorb
    rw [e2, e1]
    exact hs.2

/-- C2, counterexample: two parse-and-merge invocations starting from the
empty collection commit records with emails `"A@x.com"` and `"a@x.com"` —
equal case-insensitively — because the store filter compares emails
exactly and the parser never reports collisions with the existing
collection.  This refutes the claimed case-insensitive email invariant. -/
theorem claim_C2_counterexample :
    (commitMany [("Jo\t5551234567\tA@x.com", natGen),
                 ("Bob\t5551234568\ta@x.com", natGen)]).map ParsedData.email
      = ["A@x.com", "a@x.com"] ∧
    jsToLower "A@x.com" = jsToLower "a@x.com" := by
  decide

/-- C2, amended: over every sequence of parse-and-merge invocations
starting from the empty committed collection, no two committed records
have exactly equal emails, and no two have exactly equal phones. -/
theorem claim_C2_thm (steps : List (String × (Nat → String))) :
    (commitMany steps).Pairwise (fun a b => a.email ≠ b.email ∧ a.phone ≠ b.phone) := by
  unfold commitMany
  exact commitFold_good steps [] List.Pairwise.nil

/-- C3, counterexample: on the claim's exact line (with spaces around the
quoted field) the splitter yields FOUR fields, splitting the quoted span —
the unquoted alternative `[^,]+` matches the span starting at the space
before the opening quote, so the quote-aware alternative never fires. -/
theorem claim_C3_counterexample :
    splitRow "Jo, \"555,0100\" ,j@x.com" ',' = ["Jo", " \"555", "0100\" ", "j@x.com"] ∧
    (splitRow "Jo, \"555,0100\" ,j@x.com" ',').length = 4 := by
  decide

/-- C3, amended: for the same line without whitespace around the quoted
field, `Jo,"555,0100",j@x.com`, the quoted field containing a comma is
preserved as one field with its quotes stripped, and the line splits into
exactly three fields. -/
theorem claim_C3_thm :
    splitRow "Jo,\"555,0100\",j@x.com" ',' = ["Jo", "555,0100", "j@x.com"] := by
  decide

/-- C4, counterexample: in the batch `A/1111111111/a@x.com`,
`B/1111111111/b@x.com`, `C/2222222222/b@x.com` (tab-delimited), rows 2 and
3 are validated rows sharing the lowercased email `b@x.com`, yet the first
of them (row 2) is NOT committed — it is dropped as a phone duplicate of
row 1, while still incrementing the email counter, so row 3 is then
reported as an email duplicate.  No accepted record carries `b@x.com`,
refuting the claim that the first row of every sharing group is
committed. -/
theorem claim_C4_counterexample :
    handleParse "A\t1111111111\ta@x.com\nB\t1111111111\tb@x.com\nC\t2222222222\tb@x.com" [] natGen
      = ([{ id := "0", name := "A", phone := "1111111111", email := "a@x.com" }],
         ["Duplicate phone at Row 2", "Duplicate email at Row 3"]) ∧
    ((validatedOf "A\t1111111111\ta@x.com\nB\t1111111111\tb@x.com\nC\t2222222222\tb@x.com"
        natGen).map (fun p => jsToLower p.2.email)).count "b@x.com" = 2 ∧
    (((handleParse "A\t1111111111\ta@x.com\nB\t1111111111\tb@x.com\nC\t2222222222\tb@x.com"
        [] natGen).1.map (fun r => jsToLower r.email)).contains "b@x.com") = false := by
  decide

/-- C4, amended: for every batch, a validated row is committed exactly
when no earlier validated row shares its lowercased email or exact phone
(whether or not that earlier row was itself committed); every later
occurrence is dropped and reported as `Duplicate <email and/or phone> at
Row <n>`, both fields named in one error when both repeat; and the
duplicate errors appear in row order within the error list.  Rows rejected
by the field-count check or the validator do not occur in `validatedOf`
and therefore never influence duplicate detection. -/
theorem claim_C4_thm (input : String) (coll : List ParsedData) (gen : Nat → String) :
    (handleParse input coll gen).1 = (dupScan (validatedOf input gen) [] []).1 ∧
    (dupScan (validatedOf input gen) [] []).2.Sublist (handleParse input coll gen).2 :=
  handleParse_acc_eq_dupScan input coll gen

/-- C5, counterexample: for the input `"\nJo"` the offending line `"Jo"`
is literally line 2 of the original input block, but the error reports
Row 1, because rows are numbered within the trimmed input (leading
newlines are stripped before splitting).  This refutes the claim that row
numbers always equal the literal 1-based line number in the original
input block. -/
theorem claim_C5_counterexample :
    handleParse "\nJo" [] natGen = ([], ["Invalid number of fields at Row 1"]) ∧
    splitLines "\nJo" = ["", "Jo"] := by
  decide

/-- C5, amended: `accepted` and `errors` are the in-order concatenations
of the per-row results; the row numbers of the data rows are consecutive,
starting at 1 plus one more when a header row was skipped (i.e. they are
literal line numbers within the TRIMMED input block); and every error
string of a row carries exactly that row's row number. -/
theorem claim_C5_thm (input : String) (coll : List ParsedData) (gen : Nat → String) :
    (handleParse input coll gen).1 = ((procResults input gen).map RowResult.acc).flatten ∧
    (handleParse input coll gen).2 = ((procResults input gen).map RowResult.errs).flatten ∧
    (procResults input gen).map RowResult.rowNumber
      = List.range' (1 + (if headerOf input then 1 else 0)) (dataRowsOf input).length ∧
    (∀ rr ∈ procResults input gen, ∀ e ∈ rr.errs,
      ∃ p, e = p ++ (" at Row " ++ toString rr.rowNumber)) := by
  have he := handleParse_eq_procOutcome input coll gen
  refine ⟨?_, ?_, ?_, ?_⟩
  · rw [he]
    rfl
  · rw [he]
    rfl
  · unfold procResults
    rw [procRows_rowNumbers]
    cases hh : headerOf input <;> simp [hh]
  · unfold procResults
    exact procRows_errs_shape (detectDelimiter input) (headerOf input) gen
      (dataRowsOf input) 0 [] []

/-- C5, witness: the theorem applied to the concrete input `"Jo"`, whose
single row result is `⟨1, ["Invalid number of fields at Row 1"], []⟩`. -/
theorem claim_C5_witness :
    ∃ p, "Invalid number of fields at Row 1" = p ++ (" at Row " ++ toString (1 : Nat)) :=
  (claim_C5_thm "Jo" [] natGen).2.2.2
    ⟨1, ["Invalid number of fields at Row 1"], []⟩ (by decide)
    "Invalid number of fields at Row 1" (by decide)

/-- C6, confirmed: on the tab-delimited line `"Jo\t123\tj@x.com"` the
field `123` does not match the phone shape and is classified as a name,
overwriting `Jo` (last-write-wins); the phone role stays the empty string
and fails validation, so the parse accepts nothing and emits exactly
`Invalid phone at Row 1`. -/
theorem claim_C6_thm :
    classifyFields ["Jo", "123", "j@x.com"]
      = { name := "123", email := "j@x.com", phone := "" } ∧
    handleParse "Jo\t123\tj@x.com" [] natGen = ([], ["Invalid phone at Row 1"]) := by
  decide

/-- C7, confirmed: the delimiter detector depends only on the first line
of its input, always returns a value (tab or comma), and returns tab if
the first line contains a tab, else comma if it contains a comma, else
tab. -/
theorem claim_C7_thm (c1 c2 : String) (h : firstLine c1 = firstLine c2) :
    detectDelimiter c1 = detectDelimiter c2 ∧
    (detectDelimiter c1 = '\t' ∨ detectDelimiter c1 = ',') ∧
    detectDelimiter c1
      = (if jsIncludesChar (firstLine c1) '\t' then '\t'
         else if jsIncludesChar (firstLine c1) ',' then ',' else '\t') := by
  refine ⟨?_, ?_, rfl⟩
  · unfold detectDelimiter
    rw [h]
  · unfold detectDelimiter
    split_ifs <;> simp

/-- C7, witness: the input `"a,b\nx\ty"` has a tab on its second line but
is still comma-delimited, because only the first line `"a,b"` is
inspected. -/
theorem claim_C7_witness :
    detectDelimiter "a,b\nx\ty" = detectDelimiter "a,b" ∧
    (detectDelimiter "a,b\nx\ty" = '\t' ∨ detectDelimiter "a,b\nx\ty" = ',') ∧
    detectDelimiter "a,b\nx\ty"
      = (if jsIncludesChar (firstLine "a,b\nx\ty") '\t' then '\t'
         else if jsIncludesChar (firstLine "a,b\nx\ty") ',' then ',' else '\t') :=
  claim_C7_thm "a,b\nx\ty" "a,b" (by decide)

/-- C8, confirmed: the store's `setParsedData` appends, in order, exactly
those candidates whose name, phone and email each differ (by exact string
comparison) from the corresponding field of every already-stored record; a
candidate matching any existing record in any one of the three fields is
dropped, and no error is produced (the function returns only the new
collection). -/
theorem claim_C8_thm (cur data : List ParsedData) :
    setParsedData cur data
      = cur ++ data.filter (fun n =>
          decide (∀ e ∈ cur, e.name ≠ n.name ∧ e.phone ≠ n.phone ∧ e.email ≠ n.email)) :=
  setParsedData_filter_char cur data

/-- C9, confirmed: both alternatives of the splitting pattern match at
least one character, so no match is empty; the row `a,,b` therefore
splits into 2 fields (fewer than its 3 delimiter-separated positions) and
is rejected with `Invalid number of fields at Row 1` instead of reaching
classification with an empty field. -/
theorem claim_C9_thm :
    (∀ (cs m : List Char), m ∈ regexMatches cs → m ≠ []) ∧
    splitRow "a,,b" ',' = ["a", "b"] ∧
    (splitOnChar ',' "a,,b".toList).length = 3 ∧
    handleParse "a,,b" [] natGen = ([], ["Invalid number of fields at Row 1"]) :=
  ⟨fun _ _ hm => mem_regexMatches_ne_nil hm, by decide, by decide, by decide⟩

/-- C9, witness: the first match of the pattern on `"a,b"` is the
nonempty field `"a"`. -/
theorem claim_C9_witness : ("a".toList : List Char) ≠ [] :=
  claim_C9_thm.1 "a,b".toList "a".toList (by decide)

/-- C10, confirmed: splitting the trimmed input on newlines always yields
at least one element, so `handleParse` always takes the main branch and
the `No data provided` error is unreachable; the empty input instead
produces `Invalid number of fields at Row 1` and zero accepted records
(for every collection and id generator). -/
theorem claim_C10_thm (input : String) (coll : List ParsedData) (gen : Nat → String) :
    handleParse input coll gen = parseRows input (splitLines (jsTrim input)) coll gen ∧
    (handleParse "" coll gen).1 = [] ∧
    (handleParse "" coll gen).2 = ["Invalid number of fields at Row 1"] := by
  refine ⟨?_, ?_, ?_⟩
  · unfold handleParse
    rw [if_neg (fun h => splitLines_ne_nil (jsTrim input) (List.length_eq_zero.mp h))]
  · rw [handleParse_eq_procOutcome]
    have hm := (procOutcome_sim "" gen natGen).2
    have hz : (procOutcome "" natGen).1.map projNPE = [] := by decide
    rw [hz] at hm
    exact List.map_eq_nil_iff.mp hm
  · rw [handleParse_eq_procOutcome]
    rw [(procOutcome_sim "" gen natGen).1]
    decide

end CsvParser
